import Mathlib

/-!
Verification of the PlotSys lexical analyzer (`src/parser/lexer.cpp`,
`src/parser/lexer.hpp`, `Token.hpp`).

Strings are modelled as lists of characters; the single function
`tokenize` is modelled as a fuel-indexed recursion `tokenizeFuel`, where
the fuel is the length of the input (each iteration of the C++ `for`
loop consumes at least one character, so this fuel always suffices; the
congruence lemma `tokenizeFuel_congr` below makes that precise).
Lexical errors thrown with `throw std::runtime_error` are modelled with
`Except String`.
-/

namespace PlotSys

/-- Token kinds recognized by the lexer (`tokenType` in `Token.hpp`). -/
inductive tokenType where
  | Number
  | Operator
  | LeftParen
  | RightParen
  | Function
  | Constant
  | Variable
  | Invalid
deriving DecidableEq

/-- A lexical token: a kind together with the exact matched text
(`token` in `Token.hpp`, fields `type` and `value`). -/
structure token where
  type : tokenType
  value : List Char
deriving DecidableEq

/-- C `std::isspace` in the default locale: space (32) or one of the
control characters 9–13 (tab, newline, vertical tab, form feed, carriage return). -/
def isSpace (c : Char) : Bool :=
  decide (c.toNat = 32 ∨ (9 ≤ c.toNat ∧ c.toNat ≤ 13))

/-- C `std::isdigit`: the characters `0` (48) through `9` (57). -/
def isDigit (c : Char) : Bool :=
  decide (48 ≤ c.toNat ∧ c.toNat ≤ 57)

/-- C `std::isalpha` in the default locale: ASCII letters `A`–`Z` (65–90)
and `a`–`z` (97–122). -/
def isAlpha (c : Char) : Bool :=
  decide ((65 ≤ c.toNat ∧ c.toNat ≤ 90) ∨ (97 ≤ c.toNat ∧ c.toNat ≤ 122))

/-- Character list of a string literal. -/
def str (s : String) : List Char := s.data

/-- The set of function names recognized by the lexer (the local
`functions` table in `tokenize`). -/
def functions : List (List Char) :=
  [str "sin", str "cos", str "tan", str "sec", str "csc", str "cot",
   str "asin", str "acos", str "atan", str "asec", str "acsc", str "acot",
   str "log", str "ln", str "log_base", str "sqrt", str "abs", str "nroot",
   str "^"]

/-- Names of the predefined constants (keys of the local `constant` map
in `tokenize`; the numeric values `3.141592653589793` and
`2.718281828459045` are never consulted during tokenization, and the
`functionsArity` map is likewise unused by the scan). -/
def constant : List (List Char) := [str "pi", str "e"]

/-- The valid variable names (the local `variables` table in `tokenize`;
renamed here because `variables` is reserved by the ambient library). -/
def variablesSet : List (List Char) := [str "x", str "y", str "z"]

/-- The operator characters accepted by the operator branch
(`std::string("+-*/^%=")`). -/
def operatorChars : List Char := str "+-*/^%="

/-- Message of the multiple-decimal-points error. -/
def errDots : String :=
  "[Lexer Error]: Número mal formado con múltiples puntos decimales."

/-- Message of the multiple-exponents error. -/
def errExps : String :=
  "[Lexer Error]: Número mal formado con múltiples exponentes."

/-- Message of the incomplete-exponent error. -/
def errIncomplete : String :=
  "[Lexer Error]: Exponente inválido o incompleto."

/-- Message of the exponent-must-be-followed-by-a-digit error. -/
def errExpDigit : String :=
  "[Lexer Error]: Exponente debe ir seguido de un dígito."

/-- The messages of the four errors thrown inside the numeric-literal
sub-scanner — the only `throw` sites in `tokenize`. -/
def numericErrorMessages : List String :=
  [errDots, errExps, errIncomplete, errExpDigit]

/-- Whether a list of characters starts with a digit
(`i + 1 < expression.length() && std::isdigit(expression[i + 1])`-style lookahead). -/
def headIsDigit : List Char → Bool
  | [] => false
  | d :: _ => isDigit d

/-- Whether a list of characters starts with an ASCII letter. -/
def headIsAlpha : List Char → Bool
  | [] => false
  | d :: _ => isAlpha d

/-- The inner `while` loop of the numeric-literal sub-scanner of
`tokenize` (lines 71–134 of `lexer.cpp`).  The first character of the
literal has already been consumed by the caller; `seenDot` and `seenExp`
are the two flags of the C++ code.  On success it returns the characters
appended to `current` together with the unconsumed remainder of the
input (the C++ code reaches the same position via `break`/`i--`
followed by the `for` loop's `i++`). -/
def scanNumberTail (seenDot seenExp : Bool) : List Char → Except String (List Char × List Char)
  | [] => .ok ([], [])
  | next :: rest =>
    if isDigit next then
      match scanNumberTail seenDot seenExp rest with
      | .error e => .error e
      | .ok (cs, r) => .ok (next :: cs, r)
    else if next = '.' then
      if seenDot || seenExp then
        .error errDots
      else
        match scanNumberTail true seenExp rest with
        | .error e => .error e
        | .ok (cs, r) => .ok (next :: cs, r)
    else if next = 'e' ∨ next = 'E' then
      if seenExp then
        .error errExps
      else
        match rest with
        | [] => .error errIncomplete
        | signOrDigit :: rest2 =>
          if signOrDigit = '+' ∨ signOrDigit = '-' then
            match rest2 with
            | [] => .error errExpDigit
            | d :: _ =>
              if isDigit d then
                .ok (next :: signOrDigit :: rest2.takeWhile isDigit,
                     rest2.dropWhile isDigit)
              else
                .error errExpDigit
          else if isDigit signOrDigit then
            .ok (next :: (signOrDigit :: rest2).takeWhile isDigit,
                 (signOrDigit :: rest2).dropWhile isDigit)
          else
            .error errExpDigit
    else
      .ok ([], next :: rest)

/-- Classification of a completed alphabetic run (lines 149–163 of
`lexer.cpp`): function, else constant, else single-character variable,
else invalid. -/
def classify (cur : List Char) : token :=
  if functions.contains cur then
    ⟨tokenType.Function, cur⟩
  else if constant.contains cur then
    ⟨tokenType.Constant, cur⟩
  else if variablesSet.contains cur && cur.length == 1 then
    ⟨tokenType.Variable, cur⟩
  else
    ⟨tokenType.Invalid, cur⟩

instance : DecidableEq (Except String (List token)) := fun
  | .error a, .error b =>
    if h : a = b then .isTrue (by rw [h]) else .isFalse (by simp [h])
  | .error _, .ok _ => .isFalse (by simp)
  | .ok _, .error _ => .isFalse (by simp)
  | .ok a, .ok b =>
    if h : a = b then .isTrue (by rw [h]) else .isFalse (by simp [h])

instance : DecidableEq (Except String (List Char × List Char)) := fun
  | .error a, .error b =>
    if h : a = b then .isTrue (by rw [h]) else .isFalse (by simp [h])
  | .error _, .ok _ => .isFalse (by simp)
  | .ok _, .error _ => .isFalse (by simp)
  | .ok a, .ok b =>
    if h : a = b then .isTrue (by rw [h]) else .isFalse (by simp [h])

/-- Prepend a token to the result of tokenizing the rest of the input,
propagating a lexical error unchanged. -/
def withTail (tk : token) (t : Except String (List token)) : Except String (List token) :=
  match t with
  | .error e => .error e
  | .ok ts => .ok (tk :: ts)

/-- The main `for` loop of `tokenize` (lines 53–182 of `lexer.cpp`),
indexed by fuel.  Dispatch order follows the source: whitespace is
skipped, a digit — or a dot followed by a digit — enters the numeric
sub-scanner, a letter enters the identifier sub-scanner (a maximal run
of letters), then parentheses, then the operator characters, and
anything else becomes a single-character `Invalid` token. -/
def tokenizeFuel : Nat → List Char → Except String (List token)
  | 0, _ => .ok []
  | _ + 1, [] => .ok []
  | fuel + 1, c :: rest =>
    if isSpace c then
      tokenizeFuel fuel rest
    else if isDigit c || (c == '.' && headIsDigit rest) then
      match scanNumberTail (c == '.') false rest with
      | .error e => .error e
      | .ok (cs, r) => withTail ⟨tokenType.Number, c :: cs⟩ (tokenizeFuel fuel r)
    else if isAlpha c then
      withTail (classify (c :: rest.takeWhile isAlpha))
        (tokenizeFuel fuel (rest.dropWhile isAlpha))
    else if c = '(' then
      withTail ⟨tokenType.LeftParen, str "("⟩ (tokenizeFuel fuel rest)
    else if c = ')' then
      withTail ⟨tokenType.RightParen, str ")"⟩ (tokenizeFuel fuel rest)
    else if operatorChars.contains c then
      withTail ⟨tokenType.Operator, [c]⟩ (tokenizeFuel fuel rest)
    else
      withTail ⟨tokenType.Invalid, [c]⟩ (tokenizeFuel fuel rest)

/-- `tokenize` of `lexer.cpp`: run the scan loop with sufficient fuel. -/
def tokenize (s : List Char) : Except String (List token) :=
  tokenizeFuel s.length s

/-- Concatenation of the `value` texts of a token list, in scan order. -/
def concatTexts (ts : List token) : List Char :=
  ts.foldr (fun t acc => t.value ++ acc) []

/-- Classification of an identifier run as the spec words it: member of
the function set, else member of the constant set, else member of the
variable set and exactly one character long, else invalid. -/
def classifySpec (w : List Char) : tokenType :=
  if w ∈ functions then tokenType.Function
  else if w ∈ constant then tokenType.Constant
  else if w ∈ variablesSet ∧ w.length = 1 then tokenType.Variable
  else tokenType.Invalid

/-! ## Helper lemmas -/

theorem withTail_error (tk : token) (e : String) : withTail tk (.error e) = .error e := rfl

theorem withTail_ok (tk : token) (ts : List token) : withTail tk (.ok ts) = .ok (tk :: ts) := rfl

theorem withTail_eq_error_iff (tk : token) (t : Except String (List token)) (e : String) :
    withTail tk t = .error e ↔ t = .error e := by
  cases t <;> simp [withTail]

theorem withTail_eq_ok_iff (tk : token) (t : Except String (List token)) (ts : List token) :
    withTail tk t = .ok ts ↔ ∃ ts', t = .ok ts' ∧ ts = tk :: ts' := by
  cases t <;> simp [withTail, eq_comm]

/-- Characters accepted by the numeric sub-scanner are never whitespace. -/
theorem isSpace_eq_false (c : Char)
    (h : isDigit c = true ∨ c = '.' ∨ c = 'e' ∨ c = 'E' ∨ c = '+' ∨ c = '-') :
    isSpace c = false := by
  rcases h with h | rfl | rfl | rfl | rfl | rfl
  · simp only [isDigit, decide_eq_true_eq] at h
    simp only [isSpace, decide_eq_false_iff_not]
    omega
  all_goals decide

/-- An ASCII letter is not whitespace. -/
theorem isSpace_eq_false_of_isAlpha (c : Char) (h : isAlpha c = true) : isSpace c = false := by
  simp only [isAlpha, decide_eq_true_eq] at h
  simp only [isSpace, decide_eq_false_iff_not]
  omega

/-- An ASCII letter is not a digit. -/
theorem isDigit_eq_false_of_isAlpha (c : Char) (h : isAlpha c = true) : isDigit c = false := by
  simp only [isAlpha, decide_eq_true_eq] at h
  simp only [isDigit, decide_eq_false_iff_not]
  omega

/-- The numeric sub-scanner consumes exactly a prefix of its input: on
success the accepted characters followed by the returned remainder
reconstitute the input. -/
theorem scanNumberTail_append (sd se : Bool) (l : List Char) :
    ∀ cs r, scanNumberTail sd se l = .ok (cs, r) → cs ++ r = l := by
  induction sd, se, l using scanNumberTail.induct <;>
    intro cs r h <;>
    simp_all [scanNumberTail, List.takeWhile_append_dropWhile] <;>
    (obtain ⟨rfl, rfl⟩ := h) <;>
    simp_all [List.takeWhile_append_dropWhile]

/-- No character accepted by the numeric sub-scanner is whitespace. -/
theorem scanNumberTail_not_space (sd se : Bool) (l : List Char) :
    ∀ cs r, scanNumberTail sd se l = .ok (cs, r) → ∀ x ∈ cs, isSpace x = false := by
  induction sd, se, l using scanNumberTail.induct <;>
    intro cs r h <;>
    simp_all [scanNumberTail] <;>
    (obtain ⟨rfl, rfl⟩ := h) <;>
    intro x hx <;>
    simp only [List.mem_cons] at hx
  case case3.intro =>
    rename_i ih hscan
    rcases hx with rfl | hx
    · exact isSpace_eq_false _ (Or.inl (by assumption))
    · exact ih _ hx
  case case6.intro =>
    rename_i ih
    rcases hx with rfl | hx
    · decide
    · exact ih _ hx
  case case10.intro =>
    rename_i he hse hsign hdig
    rcases hx with rfl | rfl | rfl | hx
    · rcases he with rfl | rfl <;> decide
    · rcases hsign with rfl | rfl <;> decide
    · exact isSpace_eq_false _ (Or.inl hdig)
    · exact isSpace_eq_false _ (Or.inl (List.mem_takeWhile_imp hx))
  case case12.intro =>
    rename_i he hse hsign hdig
    rcases hx with rfl | rfl | hx
    · rcases he with rfl | rfl <;> decide
    · exact isSpace_eq_false _ (Or.inl hdig)
    · exact isSpace_eq_false _ (Or.inl (List.mem_takeWhile_imp hx))

/-- Every error of the numeric sub-scanner carries one of the four
numeric-literal diagnostics. -/
theorem scanNumberTail_error_mem (sd se : Bool) (l : List Char) :
    ∀ e, scanNumberTail sd se l = .error e → e ∈ numericErrorMessages := by
  induction sd, se, l using scanNumberTail.induct <;>
    intro e h <;>
    simp_all [scanNumberTail, numericErrorMessages]

/-- When the exponent flag is still clear at entry — as it is on the one
call site in `tokenize` — the numeric sub-scanner can only fail with the
multiple-dots, incomplete-exponent or exponent-digit diagnostics, never
with the multiple-exponents one. -/
theorem scanNumberTail_error_of_not_exp (sd se : Bool) (l : List Char) :
    ∀ e, se = false → scanNumberTail sd se l = .error e →
      e = errDots ∨ e = errIncomplete ∨ e = errExpDigit := by
  induction sd, se, l using scanNumberTail.induct <;>
    intro e hse h <;>
    simp_all [scanNumberTail]

/-- The length of the remainder returned by the numeric sub-scanner is
bounded by the length of its input. -/
theorem scanNumberTail_length_le (sd se : Bool) (l cs r : List Char)
    (h : scanNumberTail sd se l = .ok (cs, r)) : r.length ≤ l.length := by
  have := scanNumberTail_append sd se l cs r h
  calc r.length ≤ cs.length + r.length := Nat.le_add_left _ _
  _ = (cs ++ r).length := (List.length_append cs r).symm
  _ = l.length := by rw [this]

/-- Dropping a while-prefix never lengthens a list. -/
theorem dropWhile_length_le (p : Char → Bool) (l : List Char) :
    (l.dropWhile p).length ≤ l.length := by
  have h := congrArg List.length (List.takeWhile_append_dropWhile (p := p) (l := l))
  simp only [List.length_append] at h
  omega

/-- The result of the scan loop does not depend on the fuel, as long as
the fuel is at least the length of the input: every iteration of the
C++ `for` loop consumes at least one character. -/
theorem tokenizeFuel_congr (f : Nat) :
    ∀ (g : Nat) (l : List Char), l.length ≤ f → l.length ≤ g →
      tokenizeFuel f l = tokenizeFuel g l := by
  induction f with
  | zero =>
    intro g l hf _
    have : l = [] := List.length_eq_zero.mp (Nat.le_zero.mp hf)
    subst this
    cases g <;> rfl
  | succ f ih =>
    intro g l hf hg
    cases l with
    | nil => cases g <;> rfl
    | cons c rest =>
      obtain ⟨g', rfl⟩ : ∃ g', g = g' + 1 := by
        cases g with
        | zero => simp at hg
        | succ g' => exact ⟨g', rfl⟩
      simp only [List.length_cons, Nat.add_le_add_iff_right] at hf hg
      simp only [tokenizeFuel]
      by_cases h1 : isSpace c
      · simp only [h1, if_true]
        exact ih g' rest hf hg
      · by_cases h2 : (isDigit c || (c == '.' && headIsDigit rest)) = true
        · cases hscan : scanNumberTail (c == '.') false rest with
          | error e => simp [h1, h2, hscan]
          | ok p =>
            obtain ⟨cs, r⟩ := p
            have hr := scanNumberTail_length_le _ _ _ _ _ hscan
            simp [h1, h2, hscan, ih g' r (le_trans hr hf) (le_trans hr hg)]
        · by_cases h3 : isAlpha c
          · have hr := dropWhile_length_le isAlpha rest
            simp [h1, h2, h3, ih g' (rest.dropWhile isAlpha) (le_trans hr hf) (le_trans hr hg)]
          · have hrec := ih g' rest hf hg
            by_cases h4 : c = '('
            · subst h4
              simp [show isSpace '(' = false from rfl, show isDigit '(' = false from rfl,
                    show isAlpha '(' = false from rfl, hrec]
            · by_cases h5 : c = ')'
              · subst h5
                simp [show isSpace ')' = false from rfl, show isDigit ')' = false from rfl,
                      show isAlpha ')' = false from rfl, h4, hrec]
              · simp [h1, h2, h3, h4, h5, hrec]


theorem isDot_eq_false_of_isAlpha (c : Char) (h : isAlpha c = true) : (c == '.') = false := by
  simp only [isAlpha, decide_eq_true_eq] at h
  rcases eq_or_ne c '.' with rfl | hne
  · simp at h
  · simp [hne]

theorem tokenize_cons_space (c : Char) (rest : List Char) (h : isSpace c = true) :
    tokenize (c :: rest) = tokenize rest := by
  simp only [tokenize, List.length_cons, tokenizeFuel, h, if_true]

theorem tokenize_cons_number (c : Char) (rest cs r : List Char)
    (hsp : isSpace c = false)
    (hnum : (isDigit c || (c == '.' && headIsDigit rest)) = true)
    (hscan : scanNumberTail (c == '.') false rest = .ok (cs, r)) :
    tokenize (c :: rest) = withTail ⟨tokenType.Number, c :: cs⟩ (tokenize r) := by
  simp only [tokenize, List.length_cons, tokenizeFuel, hsp, hnum, hscan, if_true,
    Bool.false_eq_true, if_false]
  rw [tokenizeFuel_congr rest.length r.length r (scanNumberTail_length_le _ _ _ _ _ hscan) le_rfl]

theorem tokenize_cons_number_error (c : Char) (rest : List Char) (e : String)
    (hsp : isSpace c = false)
    (hnum : (isDigit c || (c == '.' && headIsDigit rest)) = true)
    (hscan : scanNumberTail (c == '.') false rest = .error e) :
    tokenize (c :: rest) = .error e := by
  simp only [tokenize, List.length_cons, tokenizeFuel, hsp, hnum, hscan, if_true,
    Bool.false_eq_true, if_false]

theorem tokenize_cons_alpha (c : Char) (rest : List Char) (ha : isAlpha c = true) :
    tokenize (c :: rest) =
      withTail (classify (c :: rest.takeWhile isAlpha)) (tokenize (rest.dropWhile isAlpha)) := by
  have hsp := isSpace_eq_false_of_isAlpha c ha
  have hd := isDigit_eq_false_of_isAlpha c ha
  have hdot := isDot_eq_false_of_isAlpha c ha
  simp only [tokenize, List.length_cons, tokenizeFuel, hsp, hd, hdot, ha, if_true,
    Bool.false_eq_true, Bool.false_and, Bool.or_self, if_false]
  rw [tokenizeFuel_congr rest.length (rest.dropWhile isAlpha).length (rest.dropWhile isAlpha)
    (dropWhile_length_le _ _) le_rfl]

theorem tokenize_cons_lparen (rest : List Char) :
    tokenize ('(' :: rest) = withTail ⟨tokenType.LeftParen, str "("⟩ (tokenize rest) := by
  simp only [tokenize, List.length_cons, tokenizeFuel,
    show isSpace '(' = false from rfl, show isDigit '(' = false from rfl,
    show isAlpha '(' = false from rfl, show ('(' == '.') = false from rfl,
    Bool.false_eq_true, Bool.false_and, Bool.or_self, if_false, if_pos rfl, if_true]

theorem tokenize_cons_rparen (rest : List Char) :
    tokenize (')' :: rest) = withTail ⟨tokenType.RightParen, str ")"⟩ (tokenize rest) := by
  simp only [tokenize, List.length_cons, tokenizeFuel,
    show isSpace ')' = false from rfl, show isDigit ')' = false from rfl,
    show isAlpha ')' = false from rfl, show (')' == '.') = false from rfl,
    Bool.false_eq_true, Bool.false_and, Bool.or_self, if_false]
  simp [show (')' : Char) ≠ '(' from by decide]

theorem tokenize_cons_operator (c : Char) (rest : List Char)
    (hsp : isSpace c = false)
    (hnum : (isDigit c || (c == '.' && headIsDigit rest)) = false)
    (ha : isAlpha c = false) (h4 : c ≠ '(') (h5 : c ≠ ')')
    (hop : operatorChars.contains c = true) :
    tokenize (c :: rest) = withTail ⟨tokenType.Operator, [c]⟩ (tokenize rest) := by
  simp only [tokenize, List.length_cons, tokenizeFuel, hsp, hnum, ha, h4, h5, hop, if_true,
    Bool.false_eq_true, if_false]

theorem tokenize_cons_invalid (c : Char) (rest : List Char)
    (hsp : isSpace c = false)
    (hnum : (isDigit c || (c == '.' && headIsDigit rest)) = false)
    (ha : isAlpha c = false) (h4 : c ≠ '(') (h5 : c ≠ ')')
    (hop : operatorChars.contains c = false) :
    tokenize (c :: rest) = withTail ⟨tokenType.Invalid, [c]⟩ (tokenize rest) := by
  simp only [tokenize, List.length_cons, tokenizeFuel, hsp, hnum, ha, h4, h5, hop, if_true,
    Bool.false_eq_true, if_false]


theorem mem_of_mem_dropWhile (p : Char → Bool) (l : List Char) (x : Char)
    (hx : x ∈ l.dropWhile p) : x ∈ l := by
  have h := List.takeWhile_append_dropWhile (p := p) (l := l)
  rw [← h]
  exact List.mem_append_right _ hx

theorem classify_value (w : List Char) : (classify w).value = w := by
  simp only [classify]
  split_ifs <;> rfl

theorem classify_type_ne_number (w : List Char) : (classify w).type ≠ tokenType.Number := by
  simp only [classify]
  split_ifs <;> simp

theorem classify_eq_spec (w : List Char) : classify w = ⟨classifySpec w, w⟩ := by
  by_cases h1 : w ∈ functions
  · have h1' : functions.contains w = true := by simpa using h1
    simp [classify, classifySpec, h1, h1']
  · have h1' : functions.contains w = false := by simpa using h1
    by_cases h2 : w ∈ constant
    · have h2' : constant.contains w = true := by simpa using h2
      simp [classify, classifySpec, h1, h1', h2, h2']
    · have h2' : constant.contains w = false := by simpa using h2
      by_cases h3 : w ∈ variablesSet
      · have h3' : variablesSet.contains w = true := by simpa using h3
        by_cases h4 : w.length = 1
        · simp [classify, classifySpec, h1, h1', h2, h2', h3, h3', h4]
        · simp [classify, classifySpec, h1, h1', h2, h2', h3, h3', h4]
      · have h3' : variablesSet.contains w = false := by simpa using h3
        simp [classify, classifySpec, h1, h1', h2, h2', h3, h3']

theorem takeWhile_all_append (p : Char → Bool) (w r : List Char)
    (hw : ∀ c ∈ w, p c = true) : (w ++ r).takeWhile p = w ++ r.takeWhile p := by
  induction w with
  | nil => rfl
  | cons c w ih =>
    rw [List.cons_append, List.takeWhile_cons_of_pos (hw c (List.mem_cons_self c w)),
        ih (fun x hx => hw x (List.mem_cons_of_mem _ hx)), List.cons_append]

theorem dropWhile_all_append (p : Char → Bool) (w r : List Char)
    (hw : ∀ c ∈ w, p c = true) : (w ++ r).dropWhile p = r.dropWhile p := by
  induction w with
  | nil => rfl
  | cons c w ih =>
    rw [List.cons_append, List.dropWhile_cons_of_pos (hw c (List.mem_cons_self c w)),
        ih (fun x hx => hw x (List.mem_cons_of_mem _ hx))]

theorem tokenizeFuel_error (f : Nat) :
    ∀ (l : List Char) (e : String), tokenizeFuel f l = .error e →
      e = errDots ∨ e = errIncomplete ∨ e = errExpDigit := by
  induction f with
  | zero => intro l e h; simp [tokenizeFuel] at h
  | succ f ih =>
    intro l e h
    cases l with
    | nil => simp [tokenizeFuel] at h
    | cons c rest =>
      simp only [tokenizeFuel] at h
      split at h
      · exact ih rest e h
      · split at h
        · split at h
          · rename_i e' heq
            simp only [Except.error.injEq] at h
            subst h
            exact scanNumberTail_error_of_not_exp _ _ _ e' rfl heq
          · rw [withTail_eq_error_iff] at h
            exact ih _ e h
        · split at h
          · rw [withTail_eq_error_iff] at h
            exact ih _ e h
          · split at h
            · rw [withTail_eq_error_iff] at h
              exact ih _ e h
            · split at h
              · rw [withTail_eq_error_iff] at h
                exact ih _ e h
              · split at h
                · rw [withTail_eq_error_iff] at h
                  exact ih _ e h
                · rw [withTail_eq_error_iff] at h
                  exact ih _ e h


theorem concatTexts_cons (t : token) (ts : List token) :
    concatTexts (t :: ts) = t.value ++ concatTexts ts := rfl

theorem tokenizeFuel_concat (f : Nat) :
    ∀ (l : List Char) (ts : List token), l.length ≤ f → tokenizeFuel f l = .ok ts →
      concatTexts ts = l.filter (fun c => !isSpace c) := by
  induction f with
  | zero =>
    intro l ts hf h
    have hl : l = [] := List.length_eq_zero.mp (Nat.le_zero.mp hf)
    subst hl
    simp only [tokenizeFuel, Except.ok.injEq] at h
    subst h
    rfl
  | succ f ih =>
    intro l ts hf h
    cases l with
    | nil =>
      simp only [tokenizeFuel, Except.ok.injEq] at h
      subst h
      rfl
    | cons c rest =>
      simp only [List.length_cons, Nat.add_le_add_iff_right] at hf
      simp only [tokenizeFuel] at h
      split at h
      · rename_i hs
        rw [List.filter_cons_of_neg (by simp [hs])]
        exact ih rest ts hf h
      · rename_i hs
        have hs' : isSpace c = false := by simpa using hs
        split at h
        · split at h
          · simp at h
          · rename_i cs r heq
            rw [withTail_eq_ok_iff] at h
            obtain ⟨ts', hts', rfl⟩ := h
            have hcr := scanNumberTail_append _ _ _ _ _ heq
            have hnospace := scanNumberTail_not_space _ _ _ _ _ heq
            have hrlen := le_trans (scanNumberTail_length_le _ _ _ _ _ heq) hf
            have hfil : cs.filter (fun x => !isSpace x) = cs :=
              List.filter_eq_self.mpr (fun x hx => by simp [hnospace x hx])
            rw [concatTexts_cons, ih _ ts' hrlen hts',
                List.filter_cons_of_pos (by simp [hs']), ← hcr, List.filter_append, hfil]
            simp
        · split at h
          · rename_i ha
            rw [withTail_eq_ok_iff] at h
            obtain ⟨ts', hts', rfl⟩ := h
            have hrlen := le_trans (dropWhile_length_le isAlpha rest) hf
            have hfil : (rest.takeWhile isAlpha).filter (fun x => !isSpace x) =
                rest.takeWhile isAlpha :=
              List.filter_eq_self.mpr (fun x hx => by
                simp [isSpace_eq_false_of_isAlpha x (List.mem_takeWhile_imp hx)])
            have hsplit : rest = rest.takeWhile isAlpha ++ rest.dropWhile isAlpha :=
              (List.takeWhile_append_dropWhile (p := isAlpha) (l := rest)).symm
            rw [concatTexts_cons, classify_value, ih _ ts' hrlen hts',
                List.filter_cons_of_pos (by simp [hs'])]
            conv_rhs => rw [hsplit]
            rw [List.filter_append, hfil]
            simp
          · split at h
            · rename_i hc
              subst hc
              rw [withTail_eq_ok_iff] at h
              obtain ⟨ts', hts', rfl⟩ := h
              rw [concatTexts_cons, ih _ ts' hf hts',
                  List.filter_cons_of_pos (by simp [hs'])]
              rfl
            · split at h
              · rename_i hc
                subst hc
                rw [withTail_eq_ok_iff] at h
                obtain ⟨ts', hts', rfl⟩ := h
                rw [concatTexts_cons, ih _ ts' hf hts',
                    List.filter_cons_of_pos (by simp [hs'])]
                rfl
              · split at h
                · rw [withTail_eq_ok_iff] at h
                  obtain ⟨ts', hts', rfl⟩ := h
                  rw [concatTexts_cons, ih _ ts' hf hts',
                      List.filter_cons_of_pos (by simp [hs'])]
                  rfl
                · rw [withTail_eq_ok_iff] at h
                  obtain ⟨ts', hts', rfl⟩ := h
                  rw [concatTexts_cons, ih _ ts' hf hts',
                      List.filter_cons_of_pos (by simp [hs'])]
                  rfl


theorem tokenizeFuel_no_digit_ok (f : Nat) :
    ∀ l, (∀ c ∈ l, isDigit c = false) → ∃ ts, tokenizeFuel f l = .ok ts := by
  induction f with
  | zero => intro l _; exact ⟨[], rfl⟩
  | succ f ih =>
    intro l hl
    cases l with
    | nil => exact ⟨[], rfl⟩
    | cons c rest =>
      have hrest : ∀ x ∈ rest, isDigit x = false :=
        fun x hx => hl x (List.mem_cons_of_mem _ hx)
      have hno : (isDigit c || (c == '.' && headIsDigit rest)) = false := by
        have hc := hl c (List.mem_cons_self c rest)
        cases rest with
        | nil => simp [hc, headIsDigit]
        | cons d rest2 => simp [hc, headIsDigit, hrest d (List.mem_cons_self d rest2)]
      simp only [tokenizeFuel]
      by_cases h1 : isSpace c
      · simp only [h1, if_true]
        exact ih rest hrest
      · simp only [h1, hno, Bool.false_eq_true, if_false]
        by_cases h3 : isAlpha c
        · simp only [h3, if_true]
          obtain ⟨ts, hts⟩ := ih (rest.dropWhile isAlpha)
            (fun x hx => hrest x (mem_of_mem_dropWhile _ _ _ hx))
          exact ⟨_, by rw [hts]; rfl⟩
        · simp only [h3, Bool.false_eq_true, if_false]
          obtain ⟨ts, hts⟩ := ih rest hrest
          split
          · exact ⟨_, by rw [hts]; rfl⟩
          · split
            · exact ⟨_, by rw [hts]; rfl⟩
            · split
              · exact ⟨_, by rw [hts]; rfl⟩
              · exact ⟨_, by rw [hts]; rfl⟩

theorem tokenizeFuel_number_head (f : Nat) :
    ∀ (l : List Char) (ts : List token), tokenizeFuel f l = .ok ts →
      ∀ t ∈ ts, t.type = tokenType.Number →
        ∃ c cs, t.value = c :: cs ∧ (isDigit c = true ∨ c = '.') := by
  induction f with
  | zero =>
    intro l ts h
    simp only [tokenizeFuel, Except.ok.injEq] at h
    subst h
    intro t ht
    simp at ht
  | succ f ih =>
    intro l ts h
    cases l with
    | nil =>
      simp only [tokenizeFuel, Except.ok.injEq] at h
      subst h
      intro t ht
      simp at ht
    | cons c rest =>
      simp only [tokenizeFuel] at h
      split at h
      · exact ih rest ts h
      · split at h
        · rename_i hnum
          split at h
          · simp at h
          · rename_i cs r heq
            rw [withTail_eq_ok_iff] at h
            obtain ⟨ts', hts', rfl⟩ := h
            intro t ht htype
            rcases List.mem_cons.mp ht with rfl | hmem
            · refine ⟨c, cs, rfl, ?_⟩
              rcases Bool.or_eq_true_iff.mp hnum with hd | hdot
              · exact Or.inl hd
              · exact Or.inr (by simpa using (Bool.and_eq_true_iff.mp hdot).1)
            · exact ih r ts' hts' t hmem htype
        · split at h
          · rw [withTail_eq_ok_iff] at h
            obtain ⟨ts', hts', rfl⟩ := h
            intro t ht htype
            rcases List.mem_cons.mp ht with rfl | hmem
            · exact absurd htype (classify_type_ne_number _)
            · exact ih _ ts' hts' t hmem htype
          · split at h
            · rw [withTail_eq_ok_iff] at h
              obtain ⟨ts', hts', rfl⟩ := h
              intro t ht htype
              rcases List.mem_cons.mp ht with rfl | hmem
              · simp at htype
              · exact ih _ ts' hts' t hmem htype
            · split at h
              · rw [withTail_eq_ok_iff] at h
                obtain ⟨ts', hts', rfl⟩ := h
                intro t ht htype
                rcases List.mem_cons.mp ht with rfl | hmem
                · simp at htype
                · exact ih _ ts' hts' t hmem htype
              · split at h
                · rw [withTail_eq_ok_iff] at h
                  obtain ⟨ts', hts', rfl⟩ := h
                  intro t ht htype
                  rcases List.mem_cons.mp ht with rfl | hmem
                  · simp at htype
                  · exact ih _ ts' hts' t hmem htype
                · rw [withTail_eq_ok_iff] at h
                  obtain ⟨ts', hts', rfl⟩ := h
                  intro t ht htype
                  rcases List.mem_cons.mp ht with rfl | hmem
                  · simp at htype
                  · exact ih _ ts' hts' t hmem htype


theorem ne_sign_of_isDigit (d : Char) (h : isDigit d = true) : d ≠ '+' ∧ d ≠ '-' := by
  constructor <;> rintro rfl <;> exact absurd h (by decide)

/-! ## Claims -/

/-- C1: `tokenize` raises a LexicalError only for malformed numeric
literals (its only error messages are the numeric-literal diagnostics);
any other unrecognized character is emitted as an `Invalid` token and
scanning continues; and when the input contains no digit at all — so no
numeric literal can even start — a full token list is always returned. -/
theorem claim_C1 :
    (∀ (s : List Char) (e : String), tokenize s = .error e → e ∈ numericErrorMessages) ∧
    (∀ (c : Char) (rest : List Char), isSpace c = false →
      (isDigit c || (c == '.' && headIsDigit rest)) = false → isAlpha c = false →
      c ≠ '(' → c ≠ ')' → operatorChars.contains c = false →
      tokenize (c :: rest) = withTail ⟨tokenType.Invalid, [c]⟩ (tokenize rest)) ∧
    (∀ s : List Char, (∀ c ∈ s, isDigit c = false) → ∃ ts, tokenize s = .ok ts) := by
  refine ⟨?_, tokenize_cons_invalid, fun s h => tokenizeFuel_no_digit_ok _ s h⟩
  intro s e h
  rcases tokenizeFuel_error _ _ _ h with rfl | rfl | rfl <;>
    simp [numericErrorMessages]

theorem claim_C1_witness :
    (isSpace '@' = false ∧ (isDigit '@' || ('@' == '.' && headIsDigit (str "!"))) = false ∧
      isAlpha '@' = false ∧ '@' ≠ '(' ∧ '@' ≠ ')' ∧ operatorChars.contains '@' = false) ∧
    tokenize ('@' :: str "!") = withTail ⟨tokenType.Invalid, ['@']⟩ (tokenize (str "!")) :=
  ⟨⟨by decide, by decide, by decide, by decide, by decide, by decide⟩,
    claim_C1.2.1 '@' (str "!") (by decide) (by decide) (by decide) (by decide) (by decide)
      (by decide)⟩

/-- C2: whenever `tokenize` returns a token list, the concatenation of
the tokens' texts in scan order is exactly the input with all whitespace
characters removed. -/
theorem claim_C2 (s : List Char) (ts : List token) (h : tokenize s = .ok ts) :
    concatTexts ts = s.filter (fun c => !isSpace c) :=
  tokenizeFuel_concat s.length s ts le_rfl h

theorem claim_C2_witness :
    tokenize (str "1 + x") = .ok [⟨tokenType.Number, str "1"⟩, ⟨tokenType.Operator, str "+"⟩,
      ⟨tokenType.Variable, str "x"⟩] ∧
    concatTexts [⟨tokenType.Number, str "1"⟩, ⟨tokenType.Operator, str "+"⟩,
      ⟨tokenType.Variable, str "x"⟩] = (str "1 + x").filter (fun c => !isSpace c) :=
  ⟨by decide, claim_C2 (str "1 + x") _ (by decide)⟩

/-- C3: a maximal run of alphabetic characters is classified in the
fixed priority order function → constant → single-character variable →
invalid (here expressed by `classifySpec`, the spec's wording of that
order), and in particular `"xy"` produces one Invalid token `"xy"`. -/
theorem claim_C3 :
    (∀ (w r : List Char), w ≠ [] → (∀ c ∈ w, isAlpha c = true) → headIsAlpha r = false →
      tokenize (w ++ r) = withTail ⟨classifySpec w, w⟩ (tokenize r)) ∧
    tokenize (str "xy") = .ok [⟨tokenType.Invalid, str "xy"⟩] := by
  constructor
  · intro w r hne hw hr
    obtain ⟨c, w', rfl⟩ : ∃ c w', w = c :: w' := by
      cases w with
      | nil => exact absurd rfl hne
      | cons c w' => exact ⟨c, w', rfl⟩
    have hc : isAlpha c = true := hw c (List.mem_cons_self _ _)
    have hw' : ∀ x ∈ w', isAlpha x = true := fun x hx => hw x (List.mem_cons_of_mem _ hx)
    have hrtake : r.takeWhile isAlpha = [] := by
      cases r with
      | nil => rfl
      | cons d r2 =>
        simp only [headIsAlpha] at hr
        exact List.takeWhile_cons_of_neg (by simp [hr])
    have hrdrop : r.dropWhile isAlpha = r := by
      cases r with
      | nil => rfl
      | cons d r2 =>
        simp only [headIsAlpha] at hr
        exact List.dropWhile_cons_of_neg (by simp [hr])
    rw [List.cons_append, tokenize_cons_alpha c (w' ++ r) hc,
        takeWhile_all_append isAlpha w' r hw', dropWhile_all_append isAlpha w' r hw',
        hrtake, hrdrop, List.append_nil, classify_eq_spec]
  · decide

theorem claim_C3_witness :
    (str "foo" ≠ [] ∧ (∀ c ∈ str "foo", isAlpha c = true) ∧ headIsAlpha (str "(") = false) ∧
    tokenize (str "foo" ++ str "(") =
      withTail ⟨classifySpec (str "foo"), str "foo"⟩ (tokenize (str "(")) :=
  ⟨⟨by decide, by decide, by decide⟩,
    claim_C3.1 (str "foo") (str "(") (by decide) (by decide) (by decide)⟩

/-- C4: inside a numeric literal, a `.` encountered when a decimal point
or an exponent has already been seen raises the multiple-decimal-points
LexicalError; in particular `"1.2.3"` raises it. -/
theorem claim_C4 :
    (∀ (sd se : Bool) (rest : List Char), sd = true ∨ se = true →
      scanNumberTail sd se ('.' :: rest) = .error errDots) ∧
    tokenize (str "1.2.3") = .error errDots := by
  constructor
  · intro sd se rest h
    have hor : (sd || se) = true := by rcases h with rfl | rfl <;> simp
    simp [scanNumberTail, show isDigit '.' = false from rfl, hor]
  · decide

theorem claim_C4_witness :
    (true = true ∨ false = true) ∧
    scanNumberTail true false ('.' :: str "2") = .error errDots :=
  ⟨Or.inl rfl, claim_C4.1 true false (str "2") (Or.inl rfl)⟩

/-- C5: an exponent marker at the end of the input, or followed by a
sign without a digit, or followed by a character that is neither sign
nor digit, raises a LexicalError; in particular `"2e"` raises the
incomplete-exponent error. -/
theorem claim_C5 :
    ((∀ (sd : Bool) (ec : Char), ec = 'e' ∨ ec = 'E' →
        scanNumberTail sd false [ec] = .error errIncomplete) ∧
     (∀ (sd : Bool) (ec sg : Char) (rest : List Char), ec = 'e' ∨ ec = 'E' →
        sg = '+' ∨ sg = '-' → headIsDigit rest = false →
        scanNumberTail sd false (ec :: sg :: rest) = .error errExpDigit) ∧
     (∀ (sd : Bool) (ec c : Char) (rest : List Char), ec = 'e' ∨ ec = 'E' →
        c ≠ '+' → c ≠ '-' → isDigit c = false →
        scanNumberTail sd false (ec :: c :: rest) = .error errExpDigit)) ∧
    tokenize (str "2e") = .error errIncomplete := by
  refine ⟨⟨?_, ?_, ?_⟩, by decide⟩
  · intro sd ec he
    rcases he with rfl | rfl <;>
      simp [scanNumberTail, show isDigit 'e' = false from rfl,
        show isDigit 'E' = false from rfl]
  · intro sd ec sg rest he hs hr
    cases rest with
    | nil =>
      rcases he with rfl | rfl <;> rcases hs with rfl | rfl <;>
        simp [scanNumberTail, show isDigit 'e' = false from rfl,
          show isDigit 'E' = false from rfl]
    | cons d r2 =>
      simp only [headIsDigit] at hr
      rcases he with rfl | rfl <;> rcases hs with rfl | rfl <;>
        simp [scanNumberTail, hr, show isDigit 'e' = false from rfl,
          show isDigit 'E' = false from rfl]
  · intro sd ec c rest he h1 h2 hd
    rcases he with rfl | rfl <;>
      simp [scanNumberTail, h1, h2, hd, show isDigit 'e' = false from rfl,
        show isDigit 'E' = false from rfl]

theorem claim_C5_witness :
    ('e' = 'e' ∨ 'e' = 'E') ∧ scanNumberTail false false ['e'] = .error errIncomplete :=
  ⟨Or.inl rfl, claim_C5.1.1 false 'e' (Or.inl rfl)⟩

/-- C6: after the optional sign and the run of exponent digits, the
numeric literal is complete: the sub-scanner returns with exactly the
digit run consumed and the adjacent characters (even a dot or further
digits) left for re-dispatch; in particular `"2e5.3"` yields Number
`"2e5"` then Number `".3"`. -/
theorem claim_C6 :
    ((∀ (sd : Bool) (ec d : Char) (rest : List Char), ec = 'e' ∨ ec = 'E' →
        isDigit d = true →
        scanNumberTail sd false (ec :: d :: rest) =
          .ok (ec :: (d :: rest).takeWhile isDigit, (d :: rest).dropWhile isDigit)) ∧
     (∀ (sd : Bool) (ec sg d : Char) (rest : List Char), ec = 'e' ∨ ec = 'E' →
        sg = '+' ∨ sg = '-' → isDigit d = true →
        scanNumberTail sd false (ec :: sg :: d :: rest) =
          .ok (ec :: sg :: (d :: rest).takeWhile isDigit, (d :: rest).dropWhile isDigit))) ∧
    tokenize (str "2e5.3") = .ok [⟨tokenType.Number, str "2e5"⟩, ⟨tokenType.Number, str ".3"⟩] := by
  refine ⟨⟨?_, ?_⟩, by decide⟩
  · intro sd ec d rest he hd
    obtain ⟨hp, hm⟩ := ne_sign_of_isDigit d hd
    rcases he with rfl | rfl <;>
      simp [scanNumberTail, hd, hp, hm, show isDigit 'e' = false from rfl,
        show isDigit 'E' = false from rfl]
  · intro sd ec sg d rest he hs hd
    rcases he with rfl | rfl <;> rcases hs with rfl | rfl <;>
      simp [scanNumberTail, hd, show isDigit 'e' = false from rfl,
        show isDigit 'E' = false from rfl]

theorem claim_C6_witness :
    (('e' = 'e' ∨ 'e' = 'E') ∧ isDigit '5' = true) ∧
    scanNumberTail false false ('e' :: '5' :: str ".3") =
      .ok ('e' :: ('5' :: str ".3").takeWhile isDigit, ('5' :: str ".3").dropWhile isDigit) :=
  ⟨⟨Or.inl rfl, by decide⟩, claim_C6.1.1 false 'e' '5' (str ".3") (Or.inl rfl) (by decide)⟩

/-- C7: the multiple-exponents error branch is unreachable: no input
makes `tokenize` raise the multiple-exponents LexicalError, and
`"2e3e4"` tokenizes as Number `"2e3"`, Constant `"e"`, Number `"4"`. -/
theorem claim_C7 :
    (∀ (s : List Char) (e : String), tokenize s = .error e → e ≠ errExps) ∧
    tokenize (str "2e3e4") = .ok [⟨tokenType.Number, str "2e3"⟩, ⟨tokenType.Constant, str "e"⟩,
      ⟨tokenType.Number, str "4"⟩] := by
  constructor
  · intro s e h
    rcases tokenizeFuel_error _ _ _ h with rfl | rfl | rfl <;> decide
  · decide

theorem claim_C7_witness :
    tokenize (str "1.2.3") = .error errDots ∧ errDots ≠ errExps :=
  ⟨by decide, claim_C7.1 (str "1.2.3") errDots (by decide)⟩

/-- C8: the function-table entry `"log_base"` can never be matched as a
single token, because the identifier sub-scanner accumulates alphabetic
characters only: the input `"log_base"` yields Function `"log"`,
Invalid `"_"`, Invalid `"base"`, even though `"log_base"` is a member
of the function vocabulary. -/
theorem claim_C8 :
    tokenize (str "log_base") = .ok [⟨tokenType.Function, str "log"⟩,
      ⟨tokenType.Invalid, str "_"⟩, ⟨tokenType.Invalid, str "base"⟩] ∧
    functions.contains (str "log_base") = true := by
  constructor <;> decide

/-- C9: an input consisting solely of whitespace characters (including
the empty input) tokenizes to the empty token sequence. -/
theorem claim_C9 (s : List Char) (h : ∀ c ∈ s, isSpace c = true) : tokenize s = .ok [] := by
  induction s with
  | nil => rfl
  | cons c rest ih =>
    rw [tokenize_cons_space c rest (h c (List.mem_cons_self c rest))]
    exact ih (fun x hx => h x (List.mem_cons_of_mem _ hx))

theorem claim_C9_witness :
    (∀ c ∈ str "  ", isSpace c = true) ∧ tokenize (str "  ") = .ok [] :=
  ⟨by decide, claim_C9 (str "  ") (by decide)⟩

/-- C10: every Number token's text begins with a digit or a dot — a
leading sign is never absorbed into a Number token — and `"-5"`
tokenizes as Operator `"-"` followed by Number `"5"`. -/
theorem claim_C10 :
    (∀ (s : List Char) (ts : List token), tokenize s = .ok ts →
      ∀ t ∈ ts, t.type = tokenType.Number →
        ∃ c cs, t.value = c :: cs ∧ (isDigit c = true ∨ c = '.')) ∧
    tokenize (str "-5") = .ok [⟨tokenType.Operator, str "-"⟩, ⟨tokenType.Number, str "5"⟩] :=
  ⟨fun s ts h => tokenizeFuel_number_head s.length s ts h, by decide⟩

theorem claim_C10_witness :
    tokenize (str "5") = .ok [⟨tokenType.Number, str "5"⟩] ∧
    ∃ c cs, (token.mk tokenType.Number (str "5")).value = c :: cs ∧
      (isDigit c = true ∨ c = '.') :=
  ⟨by decide, claim_C10.1 (str "5") [⟨tokenType.Number, str "5"⟩] (by decide)
    ⟨tokenType.Number, str "5"⟩ (List.mem_cons_self _ _) rfl⟩

end PlotSys
